import Mathlib

/-!
Shallow embedding of the agent-usage-stats core: the Codex RPC transport
(`CodexRpcClient` in the agent package), the usage-fetch normalization
helpers (`parseCreditsBalance`, `mergeAccount`, `readCodexAuth`,
`decodeJwtPayload`, `normalizeRateLimits`, `normalizeCodexUsage`), and the
server-side freshness cache / deduplicator (`loadUsage`, `isFresh`,
`isNotModified`, `buildEtag` in packages/server/src/rpc.ts).

Modelling conventions:
- JavaScript runtime values that flow through `as`-casts are modelled by a
  `Json` value type; `undefined` is `Option.none`, JSON `null` is
  `Json.null`, so `a ?? b` becomes `jsCoalesce`.
- JavaScript numbers are modelled as rationals; a non-finite number
  (NaN or an infinity) is collapsed to `Option.none` wherever the code only
  observes finiteness via `Number.isFinite`.
- Asynchronous code is modelled as explicit state machines: the
  synchronous prefix of `loadUsage` is one step, the settlement of the
  fetch promise is another; `CodexRpcClient` is a step function over its
  pending-call table driven by request / line / timer / exit / close
  events.
-/

namespace AgentUsage

/-- A JSON runtime value (the result of `JSON.parse`). -/
inductive Json where
  | null
  | bool (b : Bool)
  | num (q : ℚ)
  | str (s : String)
  | arr (elems : List Json)
  | obj (fields : List (String × Json))

/-- Property access `j[key]` as JavaScript performs it on a parsed JSON
value: a lookup on an object, `undefined` (here `none`) on anything else
(primitives box to wrapper objects that lack these keys; `null` access is
handled by the callers that can reach it). -/
def jsGet (j : Json) (key : String) : Option Json :=
  match j with
  | .obj fields => (fields.find? (fun p => p.1 == key)).map (fun p => p.2)
  | _ => none

/-- JavaScript truthiness of a JSON value. -/
def jsTruthy : Json → Bool
  | .null => false
  | .bool b => b
  | .num q => decide (q ≠ 0)
  | .str s => decide (s ≠ "")
  | .arr _ => true
  | .obj _ => true

/-- The nullish-coalescing operator `a ?? b` on possibly-undefined JSON
values (`none` is `undefined`). -/
def jsCoalesce (a b : Option Json) : Option Json :=
  match a with
  | none => b
  | some .null => b
  | some v => some v

/-- `s.replace(/x/g, y)` for one-character patterns: a global
single-character substitution. -/
def replaceAllChar (src dst : Char) (s : String) : String :=
  String.mk (s.data.map (fun c => if c = src then dst else c))

/-- `s.replace(/x/g, "")` for a one-character pattern: delete every
occurrence. -/
def deleteAllChar (src : Char) (s : String) : String :=
  String.mk (s.data.filter (fun c => c != src))

/-- `String.prototype.trim`: strip whitespace from both ends. -/
def jsTrim (s : String) : String :=
  String.mk (((s.data.dropWhile Char.isWhitespace).reverse.dropWhile Char.isWhitespace).reverse)

/-- `String.prototype.split` with a one-character separator. -/
def jsSplitOnChar (sep : Char) (s : String) : List String :=
  (s.data.splitOn sep).map String.mk

/-- Numeric value of a list of decimal digit characters. -/
def digitsVal (ds : List Char) : ℕ :=
  ds.foldl (fun a c => a * 10 + (c.toNat - 48)) 0

/-- `Number.parseFloat` on a string, modelled over exact rationals.
Returns `none` when the JavaScript result is not finite (NaN because no
numeric prefix exists, or an `Infinity` literal); otherwise the exact
value of the longest decimal-literal prefix. -/
def parseFloat (s : String) : Option ℚ :=
  let cs := s.data.dropWhile (fun c => c.isWhitespace)
  let signed : Bool × List Char :=
    match cs with
    | '-' :: t => (true, t)
    | '+' :: t => (false, t)
    | _ => (false, cs)
  let neg := signed.1
  let cs1 := signed.2
  if cs1.take 8 = "Infinity".data then
    none
  else
    let d1 := cs1.takeWhile Char.isDigit
    let r1 := cs1.dropWhile Char.isDigit
    let frac : List Char × List Char :=
      match r1 with
      | '.' :: t => (t.takeWhile Char.isDigit, t.dropWhile Char.isDigit)
      | _ => ([], r1)
    let d2 := frac.1
    let r2 := frac.2
    if d1.isEmpty && d2.isEmpty then
      none
    else
      let mantissa : ℚ := (digitsVal d1 : ℚ) + (digitsVal d2 : ℚ) / (10 : ℚ) ^ d2.length
      let expPart : ℤ :=
        match r2 with
        | e :: t =>
          if e = 'e' ∨ e = 'E' then
            let esigned : ℤ × List Char :=
              match t with
              | '-' :: u => (-1, u)
              | '+' :: u => (1, u)
              | _ => (1, t)
            let ed := esigned.2.takeWhile Char.isDigit
            if ed.isEmpty then 0 else esigned.1 * (digitsVal ed : ℤ)
          else 0
        | [] => 0
      let v := mantissa * (10 : ℚ) ^ expPart
      some (if neg then -v else v)

/-- The runtime type of `balance` in the rate-limits response:
`string | number | undefined`; a number is `none` inside `num` when it is
not finite. -/
inductive BalanceValue where
  | num (x : Option ℚ)
  | str (s : String)
  | undefined

/-- `parseCreditsBalance` from the agent package: a finite number passes
through, a string is stripped of commas, trimmed, and parsed with
`Number.parseFloat`; anything unparseable or missing yields `undefined`. -/
def parseCreditsBalance : BalanceValue → Option ℚ
  | .num x => x
  | .undefined => none
  | .str s =>
    let normalized := jsTrim (deleteAllChar ',' s)
    if normalized = "" then none
    else parseFloat normalized

/-- The `account` object inside a `CodexAccountResponse` (`account/read`
result). String-typed fields are modelled as JSON values because the
TypeScript casts are unchecked at runtime. -/
structure CodexAccountInner where
  type : Option Json := none
  email : Option Json := none
  planType : Option Json := none

/-- Result shape of the `account/read` RPC call. -/
structure CodexAccountResponse where
  account : Option CodexAccountInner := none
  requiresOpenaiAuth : Option Json := none

/-- The credential-fallback record produced by `readCodexAuth`. -/
structure CodexAuthFallback where
  email : Option Json := none
  planType : Option Json := none
  claims : Json := .null

/-- The merged account stored on a `CodexUsageSnapshot`. -/
structure CodexAccount where
  type : Option Json := none
  email : Option Json := none
  planType : Option Json := none
  requiresOpenaiAuth : Option Json := none

/-- `mergeAccount` from the agent package: RPC values win, fallback values
fill only absent fields, and a record with no defined field at all
collapses to `undefined`. -/
def mergeAccount (result : CodexAccountResponse) (fallback : Option CodexAuthFallback) :
    Option CodexAccount :=
  let account := result.account.getD {}
  let merged : CodexAccount :=
    { type := account.type
      email := jsCoalesce account.email (fallback.bind (fun f => f.email))
      planType := jsCoalesce account.planType (fallback.bind (fun f => f.planType))
      requiresOpenaiAuth := result.requiresOpenaiAuth }
  let hasAnyValue :=
    merged.type.isSome || merged.email.isSome || merged.planType.isSome ||
      merged.requiresOpenaiAuth.isSome
  if hasAnyValue then some merged else none

/-- A rate-limit window as reported by the upstream process; all fields
independently optional. -/
structure CodexRateLimitWindow where
  usedPercent : Option ℚ := none
  windowDurationMins : Option ℚ := none
  resetsAt : Option ℚ := none

/-- The `credits` object inside the `account/rateLimits/read` result;
`balance` arrives as `string | number | undefined`. -/
structure CreditsResponse where
  hasCredits : Option Bool := none
  unlimited : Option Bool := none
  balance : BalanceValue := .undefined

/-- The `rateLimits` object inside the `account/rateLimits/read` result. -/
structure RateLimitsInner where
  primary : Option CodexRateLimitWindow := none
  secondary : Option CodexRateLimitWindow := none
  credits : Option CreditsResponse := none

/-- Result shape of the `account/rateLimits/read` RPC call. -/
structure CodexRateLimitsResponse where
  rateLimits : Option RateLimitsInner := none

/-- Normalized credits with a numeric (or absent) balance. -/
structure CodexCredits where
  hasCredits : Option Bool := none
  unlimited : Option Bool := none
  balance : Option ℚ := none

/-- Normalized rate limits on a `CodexUsageSnapshot`. -/
structure CodexRateLimits where
  primary : Option CodexRateLimitWindow := none
  secondary : Option CodexRateLimitWindow := none
  credits : Option CodexCredits := none

/-- `normalizeRateLimits` from the agent package. -/
def normalizeRateLimits (result : CodexRateLimitsResponse) : Option CodexRateLimits :=
  match result.rateLimits with
  | none => none
  | some inner =>
    let credits : Option CodexCredits :=
      match inner.credits with
      | none => none
      | some c =>
        some { hasCredits := c.hasCredits
               unlimited := c.unlimited
               balance := parseCreditsBalance c.balance }
    some { primary := inner.primary, secondary := inner.secondary, credits := credits }

/-- The raw diagnostic payload attached to a snapshot: the two untouched
RPC results. -/
structure RawPayload where
  account : CodexAccountResponse
  rateLimits : CodexRateLimitsResponse

/-- `CodexUsageSnapshot` as built by `fetchCodexUsage` (`source` is always
the literal "rpc"). -/
structure CodexUsageSnapshot where
  source : String := "rpc"
  fetchedAt : ℤ
  account : Option CodexAccount := none
  rateLimits : Option CodexRateLimits := none
  raw : Option RawPayload := none

/-- The tail of `fetchCodexUsage` after both RPC calls and the credential
fallback have produced their results: the snapshot construction at the
moment of successful merge. `nowAtMerge` is the `Date.now()` taken there. -/
def buildSnapshot (nowAtMerge : ℤ) (accountResult : CodexAccountResponse)
    (rateLimitsResult : CodexRateLimitsResponse) (authFallback : Option CodexAuthFallback) :
    CodexUsageSnapshot :=
  { source := "rpc"
    fetchedAt := nowAtMerge
    account := mergeAccount accountResult authFallback
    rateLimits := normalizeRateLimits rateLimitsResult
    raw := some { account := accountResult, rateLimits := rateLimitsResult } }

/-- Normalized usage account (transformer package). -/
structure UsageAccount where
  email : Option Json := none
  planType : Option Json := none

/-- Normalized usage limits (transformer package). -/
structure UsageLimits where
  primary : Option CodexRateLimitWindow := none
  secondary : Option CodexRateLimitWindow := none

/-- `AgentUsageSnapshot` from the transformer package (`provider` is always
the literal "codex"). -/
structure AgentUsageSnapshot where
  provider : String := "codex"
  source : String
  fetchedAt : ℤ
  account : Option UsageAccount := none
  limits : Option UsageLimits := none
  credits : Option CodexCredits := none
  raw : Option RawPayload := none

/-- `normalizeWindow` from the transformer package (an identity re-wrap of
the optional window fields). -/
def normalizeWindow (window : Option CodexRateLimitWindow) : Option CodexRateLimitWindow :=
  match window with
  | none => none
  | some w =>
    some { usedPercent := w.usedPercent
           windowDurationMins := w.windowDurationMins
           resetsAt := w.resetsAt }

/-- `normalizeCredits` from the transformer package. -/
def normalizeCredits (credits : Option CodexCredits) : Option CodexCredits :=
  match credits with
  | none => none
  | some c =>
    some { hasCredits := c.hasCredits, unlimited := c.unlimited, balance := c.balance }

/-- `normalizeCodexUsage` from the transformer package. -/
def normalizeCodexUsage (snapshot : CodexUsageSnapshot) : AgentUsageSnapshot :=
  { provider := "codex"
    source := snapshot.source
    fetchedAt := snapshot.fetchedAt
    account :=
      match snapshot.account with
      | none => none
      | some a => some { email := a.email, planType := a.planType }
    limits :=
      match snapshot.rateLimits with
      | none => none
      | some rl =>
        some { primary := normalizeWindow rl.primary, secondary := normalizeWindow rl.secondary }
    credits := normalizeCredits (snapshot.rateLimits.bind (fun rl => rl.credits))
    raw := snapshot.raw }

/-- The ambient effects used by `readCodexAuth` / `decodeJwtPayload`:
`readFile` (`none` means the read rejected), `JSON.parse` (`none` means it
threw a SyntaxError), and `Buffer.from(s, "base64").toString("utf8")`,
which in Node is total (invalid characters are skipped, never thrown). -/
structure AuthEnv where
  readFile : String → Option String
  jsonParse : String → Option Json
  base64ToUtf8 : String → String

/-- `decodeJwtPayload` from the agent package: split on ".", take the
middle segment, restore the standard base64 alphabet and padding, decode,
and JSON-parse; any failure yields `undefined`. -/
def decodeJwtPayload (env : AuthEnv) (token : String) : Option Json :=
  match (jsSplitOnChar '.' token).get? 1 with
  | none => none
  | some payload =>
    if payload = "" then none
    else
      let normalized := replaceAllChar '_' '/' (replaceAllChar '-' '+' payload)
      let padLen := (4 - normalized.length % 4) % 4
      let padded := normalized ++ String.mk (List.replicate padLen '=')
      env.jsonParse (env.base64ToUtf8 padded)

/-- The optional-chaining expression `parsed.tokens?.idToken`. -/
def idTokenOf (parsed : Json) : Option Json :=
  match jsGet parsed "tokens" with
  | none => none
  | some .null => none
  | some t => jsGet t "idToken"

/-- The tail of `readCodexAuth` once a truthy `idToken` value is in hand:
decode its payload and extract the claims, preferring the namespaced keys.
A truthy non-string token makes `idToken.split(".")` throw. -/
def authFromIdToken (env : AuthEnv) (v : Json) : Except String (Option CodexAuthFallback) :=
  match v with
  | .str idToken =>
    match decodeJwtPayload env idToken with
    | none => .ok none
    | some claims =>
      if jsTruthy claims = false then .ok none
      else
        .ok (some
          { email :=
              jsCoalesce (jsGet claims "https://api.openai.com/profile.email")
                (jsGet claims "email")
            planType :=
              jsCoalesce (jsGet claims "https://api.openai.com/auth.chatgpt_plan_type")
                (jsGet claims "chatgpt_plan_type")
            claims := claims })
  | _ => .error "TypeError: idToken.split is not a function"

/-- `readCodexAuth` from the agent package, as the throwing function it is
(the `.catch(() => undefined)` guard lives at its call site in
`fetchCodexUsage`). `Except.error` marks each point where the JavaScript
function would throw: a rejected file read, a JSON.parse SyntaxError, a
property access on `null`, or calling `.split` on a truthy non-string
token. -/
def readCodexAuth (env : AuthEnv) (authPath : String) :
    Except String (Option CodexAuthFallback) :=
  match env.readFile authPath with
  | none => .error "readFile rejected"
  | some raw =>
    match env.jsonParse raw with
    | none => .error "JSON.parse threw"
    | some parsed =>
      match parsed with
      | .null => .error "TypeError: cannot read properties of null"
      | _ =>
        match idTokenOf parsed with
        | none => .ok none
        | some v =>
          if jsTruthy v = false then .ok none
          else authFromIdToken env v

/-- The call site `readCodexAuth(authPath).catch(() => undefined)` inside
`fetchCodexUsage`: every rejection collapses to `undefined`. -/
def readCodexAuthCaught (env : AuthEnv) (authPath : String) : Option CodexAuthFallback :=
  match readCodexAuth env authPath with
  | .error _ => none
  | .ok r => r

/-! ### The server cache / deduplicator (packages/server/src/rpc.ts) -/

/-- `Map.get` on a string-keyed map modelled as an association list. -/
def mget (key : String) (m : List (String × α)) : Option α :=
  (m.find? (fun p => p.1 == key)).map (fun p => p.2)

/-- `Map.set`: replace any existing binding for the key. -/
def mset (key : String) (v : α) (m : List (String × α)) : List (String × α) :=
  (key, v) :: m.filter (fun p => p.1 != key)

/-- `Map.delete`. -/
def mdel (key : String) (m : List (String × α)) : List (String × α) :=
  m.filter (fun p => p.1 != key)

/-- `CachedUsage` from rpc.ts. -/
structure CachedUsage where
  snapshot : AgentUsageSnapshot
  etag : String
  lastUpdated : ℤ

/-- `buildEtag` from rpc.ts: `W/"<type>-<timestamp>"`. -/
def buildEtag (type : String) (timestamp : ℤ) : String :=
  "W/\"" ++ type ++ "-" ++ toString timestamp ++ "\""

/-- `isFresh` from rpc.ts; `cacheTtlMs` is passed explicitly. -/
def isFresh (cacheTtlMs : ℤ) (entry : CachedUsage) (now : ℤ) : Bool :=
  decide (now - entry.lastUpdated < cacheTtlMs)

/-- The module-level mutable state of rpc.ts: the `cache` map, the
`inFlight` map (an in-flight fetch is identified by the id it was
registered under), and a counter of fetches ever started, used to mint
those ids. -/
structure CacheState where
  cache : List (String × CachedUsage) := []
  inFlight : List (String × ℕ) := []
  nextFid : ℕ := 0

/-- What one caller of `loadUsage` holds at the end of the synchronous
prefix of the call: a fresh cached entry returned directly, the promise of
an already in-flight fetch, or the promise of a fetch this caller just
started and registered. -/
inductive LoadRes where
  | hit (e : CachedUsage)
  | await (fid : ℕ)
  | started (fid : ℕ)

/-- The synchronous prefix of `loadUsage(type)` in rpc.ts: check the cache
for a fresh entry, else join the in-flight fetch, else register a new
fetch. No suspension point is crossed inside this step, so consecutive
steps model concurrent callers within one event-loop turn. -/
def loadUsageStep (cacheTtlMs : ℤ) (type : String) (now : ℤ) (s : CacheState) :
    LoadRes × CacheState :=
  match mget type s.cache with
  | some cached =>
    if isFresh cacheTtlMs cached now then (.hit cached, s)
    else
      match mget type s.inFlight with
      | some fid => (.await fid, s)
      | none =>
        (.started s.nextFid,
         { s with inFlight := mset type s.nextFid s.inFlight, nextFid := s.nextFid + 1 })
  | none =>
    match mget type s.inFlight with
    | some fid => (.await fid, s)
    | none =>
      (.started s.nextFid,
       { s with inFlight := mset type s.nextFid s.inFlight, nextFid := s.nextFid + 1 })

/-- Settlement of the fetch promise built inside `loadUsage`: the body
throws on an unsupported type, otherwise awaits `fetchCodexUsage` (whose
result, success or failure, is `fetchResult`), normalizes it, builds the
cache entry from the snapshot's own `fetchedAt`, and stores it; the
`finally` clause deregisters the in-flight entry on every path. The first
component is the value every awaiter of this promise receives. -/
def fetchBodyResult (type : String) (fetchResult : Except String CodexUsageSnapshot)
    (s : CacheState) : Except String CachedUsage × CacheState :=
  if type ≠ "codex" then
    (.error ("Unsupported usage type: " ++ type), { s with inFlight := mdel type s.inFlight })
  else
    match fetchResult with
    | .error e => (.error e, { s with inFlight := mdel type s.inFlight })
    | .ok snapshot =>
      let usage := normalizeCodexUsage snapshot
      let lastUpdated := usage.fetchedAt
      let entry : CachedUsage :=
        { snapshot := usage, etag := buildEtag type lastUpdated, lastUpdated := lastUpdated }
      (.ok entry,
       { s with cache := mset type entry s.cache, inFlight := mdel type s.inFlight })

/-- An event in the life of the cache machine: a caller running the
synchronous prefix of `loadUsage`, or an in-flight fetch settling. -/
inductive CEvent where
  | load (type : String) (now : ℤ)
  | complete (type : String) (fetchResult : Except String CodexUsageSnapshot)

/-- One cache-machine transition. -/
def cstep (cacheTtlMs : ℤ) (s : CacheState) (e : CEvent) : CacheState :=
  match e with
  | .load type now => (loadUsageStep cacheTtlMs type now s).2
  | .complete type fetchResult => (fetchBodyResult type fetchResult s).2

/-- Run the cache machine over a trace of events. -/
def crun (cacheTtlMs : ℤ) (events : List CEvent) (s : CacheState) : CacheState :=
  events.foldl (cstep cacheTtlMs) s

/-- `n` callers of `loadUsage` for the same key interleaved within one
event-loop turn (so all observe the same `Date.now()` and no fetch settles
in between); returns what each caller holds plus the final state. -/
def runCallers (cacheTtlMs : ℤ) (type : String) (now : ℤ) :
    ℕ → CacheState → List LoadRes × CacheState
  | 0, s => ([], s)
  | n + 1, s =>
    let step1 := loadUsageStep cacheTtlMs type now s
    let rest := runCallers cacheTtlMs type now n step1.2
    (step1.1 :: rest.1, rest.2)

/-- Whether a caller's load result registered a new upstream fetch. -/
def LoadRes.startedFetch : LoadRes → Bool
  | .started _ => true
  | _ => false

/-- The in-flight fetch a caller ends up awaiting, if any. -/
def LoadRes.fidOf : LoadRes → Option ℕ
  | .hit _ => none
  | .await fid => some fid
  | .started fid => some fid

/-- The value a caller ultimately receives, given the settlement value of
each fetch promise. -/
def LoadRes.received (deliver : ℕ → Except String CachedUsage) :
    LoadRes → Except String CachedUsage
  | .hit e => .ok e
  | .await fid => deliver fid
  | .started fid => deliver fid

/-! ### The conditional-response adapter (rpc.ts) -/

/-- The two conditional request headers read by `isNotModified`; `none`
means the header is absent. -/
structure ReqHeaders where
  ifNoneMatch : Option String := none
  ifModifiedSince : Option String := none

/-- `isNotModified` from rpc.ts. `dateParse` stands for `Date.parse`
(`none` is NaN); empty header strings are falsy and short-circuit exactly
as in the JavaScript. -/
def isNotModified (dateParse : String → Option ℤ) (h : ReqHeaders) (entry : CachedUsage) :
    Bool :=
  (match h.ifNoneMatch with
   | some s => s != "" && s == entry.etag
   | none => false)
  ||
  (match h.ifModifiedSince with
   | some s =>
     if s == "" then false
     else
       match dateParse s with
       | some parsed => decide (entry.lastUpdated ≤ parsed)
       | none => false
   | none => false)

/-! ### The transport (`CodexRpcClient` in the agent package) -/

/-- The mutable state of one `CodexRpcClient`: the pending-call table
(id, method of the call — the method is captured by the timeout closure),
the id counter, and the closed flag. -/
structure TransportState where
  pending : List (ℕ × String) := []
  nextId : ℕ := 1
  closed : Bool := false

/-- Observable outcomes emitted by transport transitions: a pending call
resolving, a pending call rejecting with an error message, or `request`
itself throwing because the client is closed. -/
inductive TOut where
  | resolved (id : ℕ)
  | rejected (id : ℕ) (message : String)
  | requestThrew (message : String)

/-- Events driving one `CodexRpcClient`: a `request` call, a line arriving
on stdout (already split into the parse outcome `handleLine` computes:
`none` for an unparsable line or one without a numeric id, otherwise the
id and the optional error object), a per-call timer firing, the child
process exiting, and `close`. -/
inductive TEvent where
  | request (method : String)
  | line (payload : Option (ℕ × Option (ℤ × String)))
  | timerFire (id : ℕ)
  | procExit (code : Option ℤ) (signal : Option String)
  | close

/-- The error message the exit handler builds: code 0 gets the generic
text, otherwise the template `Codex RPC process exited (<code>$<:signal>)`
(the literal `$` is in the source template). -/
def exitMessage (code : Option ℤ) (signal : Option String) : String :=
  if code = some 0 then "Codex RPC process exited unexpectedly"
  else
    "Codex RPC process exited (" ++
      (match code with | some c => toString c | none => "unknown") ++ "$" ++
      (match signal with
       | some sg => if sg = "" then "" else ":" ++ sg
       | none => "") ++ ")"

/-- One `CodexRpcClient` transition, per the handlers in the source:
`request` throws when closed, otherwise assigns `nextId++` and inserts a
pending entry; `handleLine` drops lines with no matching pending entry and
otherwise removes the entry and settles it; a fired timer deletes its
entry and rejects with the timeout message (a cleared timer never fires:
every path that removes a pending entry also clears its timer); `exit`
rejects and clears every pending call unless the client is closed;
`close` is a no-op when already closed and otherwise marks the client
closed and rejects every pending call. -/
def tstep (s : TransportState) (e : TEvent) : TransportState × List TOut :=
  match e with
  | .request method =>
    if s.closed then (s, [.requestThrew "Codex RPC client is closed"])
    else
      ({ s with pending := s.pending ++ [(s.nextId, method)], nextId := s.nextId + 1 }, [])
  | .line none => (s, [])
  | .line (some (id, err)) =>
    match (s.pending.find? (fun p => p.1 == id)) with
    | none => (s, [])
    | some _ =>
      ({ s with pending := s.pending.filter (fun p => p.1 != id) },
       [match err with
        | some ce => .rejected id ("Codex RPC error " ++ toString ce.1 ++ ": " ++ ce.2)
        | none => .resolved id])
  | .timerFire id =>
    match (s.pending.find? (fun p => p.1 == id)) with
    | none => (s, [])
    | some p =>
      ({ s with pending := s.pending.filter (fun q => q.1 != id) },
       [.rejected id ("Codex RPC request timed out: " ++ p.2)])
  | .procExit code signal =>
    if s.closed then (s, [])
    else
      ({ s with pending := [] },
       s.pending.map (fun p => .rejected p.1 (exitMessage code signal)))
  | .close =>
    if s.closed then (s, [])
    else
      ({ s with pending := [], closed := true },
       s.pending.map (fun p => .rejected p.1 "Codex RPC client closed"))

/-- Run a transport over a trace, collecting every emitted outcome. -/
def trun (events : List TEvent) (s : TransportState) : TransportState × List TOut :=
  match events with
  | [] => (s, [])
  | e :: rest =>
    let step1 := tstep s e
    let restRun := trun rest step1.1
    (restRun.1, step1.2 ++ restRun.2)

/-- The ids assigned to outbound calls along a trace, in order. -/
def assignedIds (events : List TEvent) (s : TransportState) : List ℕ :=
  match events with
  | [] => []
  | .request m :: rest =>
    if s.closed then assignedIds rest s
    else s.nextId :: assignedIds rest (tstep s (.request m)).1
  | e :: rest => assignedIds rest (tstep s e).1

/-! ### Map lemmas -/

theorem mget_cons (k : String) (p : String × α) (t : List (String × α)) :
    mget k (p :: t) = if p.1 = k then some p.2 else mget k t := by
  by_cases hp : p.1 = k
  · simp [mget, List.find?_cons_of_pos, hp]
  · simp [mget, List.find?_cons_of_neg, hp]

theorem mget_mset_self (k : String) (v : α) (m : List (String × α)) :
    mget k (mset k v m) = some v := by
  simp [mset, mget_cons]

theorem mget_filter_ne (k k' : String) (m : List (String × α)) (h : k ≠ k') :
    mget k (m.filter (fun p => p.1 != k')) = mget k m := by
  induction m with
  | nil => rfl
  | cons p t ih =>
    rcases eq_or_ne p.1 k' with hk' | hk'
    · have h2 : p.1 ≠ k := by rw [hk']; exact fun e => h e.symm
      simp [List.filter_cons, hk', mget_cons, h2, ih, Ne.symm h]
    · by_cases hpk : p.1 = k <;>
        simp [List.filter_cons, hk', mget_cons, hpk, ih, h]

theorem mget_mset_ne (k k' : String) (v : α) (m : List (String × α)) (h : k ≠ k') :
    mget k (mset k' v m) = mget k m := by
  rw [mset, mget_cons, if_neg (fun e => h e.symm)]
  exact mget_filter_ne k k' m h

theorem mget_mdel_self (k : String) (m : List (String × α)) :
    mget k (mdel k m) = none := by
  induction m with
  | nil => rfl
  | cons p t ih =>
    by_cases hp : p.1 = k
    · simpa [mdel, List.filter_cons, hp] using ih
    · simpa [mdel, List.filter_cons, hp, mget_cons] using ih

theorem mget_mdel_ne (k k' : String) (m : List (String × α)) (h : k ≠ k') :
    mget k (mdel k' m) = mget k m :=
  mget_filter_ne k k' m h

/-! ### Claim theorems -/

/-- C2: for every key with a stored cache entry, if `now - entry.lastUpdated`
is strictly below the configured TTL, `load(key)` returns that cached entry
unchanged and performs zero upstream fetches: the step yields `hit e` and
leaves the whole state (cache, in-flight registry, fetch counter)
untouched, so no fetch is registered or started. -/
theorem claim_fresh_cache_hit (cacheTtlMs : ℤ) (type : String) (now : ℤ)
    (s : CacheState) (e : CachedUsage)
    (hc : mget type s.cache = some e)
    (hf : now - e.lastUpdated < cacheTtlMs) :
    loadUsageStep cacheTtlMs type now s = (.hit e, s) := by
  have : isFresh cacheTtlMs e now = true := by simp [isFresh, hf]
  simp [loadUsageStep, hc, this]

/-- Witness for C2 at a concrete state: a cache entry with
`lastUpdated = 100` queried at `now = 105` under the default 10000 ms TTL
is returned as-is. -/
theorem claim_fresh_cache_hit_witness :
    loadUsageStep 10000 "codex" 105
      { cache := [("codex",
          { snapshot := { source := "rpc", fetchedAt := 100 },
            etag := buildEtag "codex" 100, lastUpdated := 100 })] }
      = (.hit { snapshot := { source := "rpc", fetchedAt := 100 },
                etag := buildEtag "codex" 100, lastUpdated := 100 },
         { cache := [("codex",
             { snapshot := { source := "rpc", fetchedAt := 100 },
               etag := buildEtag "codex" 100, lastUpdated := 100 })] }) :=
  claim_fresh_cache_hit 10000 "codex" 105 _ _ rfl (by decide)

/-- C4: credits-balance normalization: `"1,234.50"` (thousands separator
stripped) parses to the rational `1234.5`; an already-numeric finite
balance passes through unchanged; an unparseable string and a missing
balance both normalize to absent (`none`), never to zero and never to an
error (the function is total). -/
theorem claim_credits_balance_normalization :
    parseCreditsBalance (.str "1,234.50") = some (1234.5 : ℚ)
    ∧ (∀ q : ℚ, parseCreditsBalance (.num (some q)) = some q)
    ∧ parseCreditsBalance (.str "not-a-number") = none
    ∧ parseCreditsBalance .undefined = none := by
  refine ⟨?_, fun q => rfl, by decide, rfl⟩
  have h : parseCreditsBalance (.str "1,234.50")
      = some (((1234 : ℚ) + (50 : ℚ) / (10 : ℚ) ^ (2 : ℕ)) * (10 : ℚ) ^ (0 : ℤ)) := rfl
  rw [h]
  norm_num

/-- Witness for C4: the numeric pass-through conjunct applied at the
concrete balance 42. -/
theorem claim_credits_balance_normalization_witness :
    parseCreditsBalance (.num (some 42)) = some 42 :=
  claim_credits_balance_normalization.2.1 42

/-- C5: account merge precedence. For the two fallback-fillable fields
(`email`, `planType`; `type` and `requiresOpenaiAuth` have no fallback
source), an RPC value that is present wins, and the fallback value is used
exactly when the RPC value is absent; in particular RPC email
`"a@x.com"` with fallback email `"b@y.com"` merges to `"a@x.com"`, and an
absent RPC email with fallback email `"b@y.com"` merges to `"b@y.com"`. -/
theorem claim_merge_account_precedence :
    (∀ (r : CodexAccountResponse) (f : Option CodexAuthFallback)
        (a : CodexAccountInner) (e : String),
        r.account = some a → a.email = some (.str e) →
        ∃ m, mergeAccount r f = some m ∧ m.email = some (.str e))
    ∧ (∀ (r : CodexAccountResponse) (f : Option CodexAuthFallback) (a : CodexAccountInner),
        r.account = some a → a.email = none →
        ∀ m, mergeAccount r f = some m → m.email = f.bind (fun fb => fb.email))
    ∧ (∀ (r : CodexAccountResponse) (f : Option CodexAuthFallback)
        (a : CodexAccountInner) (p : String),
        r.account = some a → a.planType = some (.str p) →
        ∃ m, mergeAccount r f = some m ∧ m.planType = some (.str p))
    ∧ (∀ (r : CodexAccountResponse) (f : Option CodexAuthFallback) (a : CodexAccountInner),
        r.account = some a → a.planType = none →
        ∀ m, mergeAccount r f = some m → m.planType = f.bind (fun fb => fb.planType))
    ∧ (∃ m, mergeAccount { account := some { email := some (.str "a@x.com") } }
          (some { email := some (.str "b@y.com") }) = some m
          ∧ m.email = some (.str "a@x.com"))
    ∧ (∃ m, mergeAccount { account := some {} }
          (some { email := some (.str "b@y.com") }) = some m
          ∧ m.email = some (.str "b@y.com")) := by
  refine ⟨?_, ?_, ?_, ?_, ?_, ?_⟩
  · intro r f a e hr he
    refine ⟨{ type := a.type, email := some (.str e),
              planType := jsCoalesce a.planType (f.bind fun fb => fb.planType),
              requiresOpenaiAuth := r.requiresOpenaiAuth }, ?_, rfl⟩
    simp [mergeAccount, hr, he, jsCoalesce]
  · intro r f a hr he m hm
    simp only [mergeAccount, hr, Option.getD_some] at hm
    split at hm
    · cases hm; simp [he, jsCoalesce]
    · exact absurd hm (by simp)
  · intro r f a p hr hp
    refine ⟨{ type := a.type,
              email := jsCoalesce a.email (f.bind fun fb => fb.email),
              planType := some (.str p),
              requiresOpenaiAuth := r.requiresOpenaiAuth }, ?_, rfl⟩
    simp [mergeAccount, hr, hp, jsCoalesce]
  · intro r f a hr hp m hm
    simp only [mergeAccount, hr, Option.getD_some] at hm
    split at hm
    · cases hm; simp [hp, jsCoalesce]
    · exact absurd hm (by simp)
  · exact ⟨_, rfl, rfl⟩
  · exact ⟨_, rfl, rfl⟩

/-- Witness for C5: the two concrete merge scenarios re-derived by
applying the theorem at the examples' inputs. -/
theorem claim_merge_account_precedence_witness :
    ∃ m, mergeAccount { account := some { email := some (.str "a@x.com") } }
        (some { email := some (.str "b@y.com") }) = some m
        ∧ m.email = some (.str "a@x.com") :=
  claim_merge_account_precedence.1
    { account := some { email := some (.str "a@x.com") } }
    (some { email := some (.str "b@y.com") })
    { email := some (.str "a@x.com") } "a@x.com" rfl rfl

/-- C6: the conditional-response adapter signals not-modified exactly when
the request's `if-none-match` equals the entry's ETag exactly, OR its
`if-modified-since` parses (`dateParse` models `Date.parse`; `none` is
NaN, and the only hypothesis on it is that the empty string does not
parse, which holds of `Date.parse`) to a timestamp at or after
`entry.lastUpdated`; one matching condition suffices even when both
headers are present. The hypothesis `entry.etag ≠ ""` holds of every
entry the server builds (`buildEtag` output starts with `W/`). -/
theorem claim_not_modified_or_semantics (dateParse : String → Option ℤ)
    (h : ReqHeaders) (entry : CachedUsage)
    (hetag : entry.etag ≠ "") (hdp : dateParse "" = none) :
    isNotModified dateParse h entry = true ↔
      h.ifNoneMatch = some entry.etag ∨
      ∃ s t, h.ifModifiedSince = some s ∧ dateParse s = some t ∧ entry.lastUpdated ≤ t := by
  unfold isNotModified
  rcases h with ⟨inm, ims⟩
  constructor
  · intro ht
    rcases Bool.or_eq_true_iff.mp ht with h1 | h2
    · left
      match inm with
      | some s =>
        simp only [Bool.and_eq_true, bne_iff_ne, beq_iff_eq] at h1
        simp [h1.2]
      | none => simp at h1
    · right
      match ims with
      | some s =>
        simp only at h2
        split at h2
        · simp at h2
        · rcases hds : dateParse s with _ | t
          · rw [hds] at h2; simp at h2
          · rw [hds] at h2
            exact ⟨s, t, rfl, hds, by simpa using h2⟩
      | none => simp at h2
  · intro hor
    rcases hor with h1 | ⟨s, t, hims, hds, hle⟩
    · subst h1
      apply Bool.or_eq_true_iff.mpr
      left
      simp [hetag]
    · subst hims
      apply Bool.or_eq_true_iff.mpr
      right
      have hs : s ≠ "" := fun e => by rw [e, hdp] at hds; cases hds
      simp only [beq_iff_eq, if_neg hs, hds]
      simpa using hle

/-- Witness for C6: a concrete entry with ETag `W/"codex-5"` and a request
carrying exactly that `if-none-match` value is judged not-modified. -/
theorem claim_not_modified_or_semantics_witness :
    isNotModified (fun _ => none)
      { ifNoneMatch := some (buildEtag "codex" 5) }
      { snapshot := { source := "rpc", fetchedAt := 5 },
        etag := buildEtag "codex" 5, lastUpdated := 5 } = true :=
  (claim_not_modified_or_semantics (fun _ => none)
      { ifNoneMatch := some (buildEtag "codex" 5) }
      { snapshot := { source := "rpc", fetchedAt := 5 },
        etag := buildEtag "codex" 5, lastUpdated := 5 }
      (by decide) rfl).mpr (Or.inl rfl)

/-- A caller that finds no fresh entry and an in-flight fetch joins that
fetch without touching the state. -/
theorem loadUsageStep_join (cacheTtlMs : ℤ) (type : String) (now : ℤ)
    (s : CacheState) (fid : ℕ)
    (hstale : ∀ e, mget type s.cache = some e → isFresh cacheTtlMs e now = false)
    (hfl : mget type s.inFlight = some fid) :
    loadUsageStep cacheTtlMs type now s = (.await fid, s) := by
  unfold loadUsageStep
  cases hc : mget type s.cache with
  | none => simp [hfl]
  | some e => simp [hstale e hc, hfl]

/-- A caller that finds no fresh entry and no in-flight fetch registers a
new fetch under the next fetch id. -/
theorem loadUsageStep_start (cacheTtlMs : ℤ) (type : String) (now : ℤ) (s : CacheState)
    (hstale : ∀ e, mget type s.cache = some e → isFresh cacheTtlMs e now = false)
    (hfl : mget type s.inFlight = none) :
    loadUsageStep cacheTtlMs type now s =
      (.started s.nextFid,
       { s with inFlight := mset type s.nextFid s.inFlight, nextFid := s.nextFid + 1 }) := by
  unfold loadUsageStep
  cases hc : mget type s.cache with
  | none => simp [hfl]
  | some e => simp [hstale e hc, hfl]

/-- While no fresh entry exists and a fetch is in flight, every further
caller in the turn joins it and the state never changes. -/
theorem runCallers_all_join (cacheTtlMs : ℤ) (type : String) (now : ℤ) (fid : ℕ) :
    ∀ (n : ℕ) (s : CacheState),
    (∀ e, mget type s.cache = some e → isFresh cacheTtlMs e now = false) →
    mget type s.inFlight = some fid →
    runCallers cacheTtlMs type now n s = (List.replicate n (.await fid), s) := by
  intro n
  induction n with
  | zero => intro s _ _; rfl
  | succ k ih =>
    intro s hstale hfl
    have h1 := loadUsageStep_join cacheTtlMs type now s fid hstale hfl
    simp only [runCallers, h1, ih s hstale hfl, List.replicate]

/-- C1: within one event-loop turn (no suspension between the synchronous
prefixes of the calls, hence one shared `Date.now()` and no settlement in
between), any number `n + 1 ≥ 1` of concurrent callers of `load` for one
key, starting while no fresh cache entry exists for it and nothing is in
flight, start exactly one upstream fetch: the first caller registers fetch
id `s.nextFid` and every caller — first included — ends up awaiting that
same fetch, so for any settlement (`deliver`) of the fetch promises all of
them receive the same successful entry or the same failure,
`deliver s.nextFid`. -/
theorem claim_single_flight_dedup (cacheTtlMs : ℤ) (type : String) (now : ℤ)
    (s : CacheState) (n : ℕ)
    (hstale : ∀ e, mget type s.cache = some e → isFresh cacheTtlMs e now = false)
    (hfl : mget type s.inFlight = none) :
    ((runCallers cacheTtlMs type now (n + 1) s).1.countP LoadRes.startedFetch = 1)
    ∧ (∀ r ∈ (runCallers cacheTtlMs type now (n + 1) s).1, r.fidOf = some s.nextFid)
    ∧ (∀ (deliver : ℕ → Except String CachedUsage),
        ∀ r ∈ (runCallers cacheTtlMs type now (n + 1) s).1,
          r.received deliver = deliver s.nextFid) := by
  have h1 := loadUsageStep_start cacheTtlMs type now s hstale hfl
  set s1 : CacheState :=
    { s with inFlight := mset type s.nextFid s.inFlight, nextFid := s.nextFid + 1 } with hs1
  have hstale1 : ∀ e, mget type s1.cache = some e → isFresh cacheTtlMs e now = false := hstale
  have hfl1 : mget type s1.inFlight = some s.nextFid := mget_mset_self type s.nextFid s.inFlight
  have h2 := runCallers_all_join cacheTtlMs type now s.nextFid n s1 hstale1 hfl1
  have hrun : runCallers cacheTtlMs type now (n + 1) s =
      (.started s.nextFid :: List.replicate n (.await s.nextFid), s1) := by
    simp only [runCallers, h1, h2]
  rw [hrun]
  refine ⟨?_, ?_, ?_⟩
  · simp [List.countP_cons, LoadRes.startedFetch, List.countP_eq_zero]
  · intro r hr
    rcases List.mem_cons.mp hr with h | h
    · rw [h]; rfl
    · rw [List.eq_of_mem_replicate h]; rfl
  · intro deliver r hr
    rcases List.mem_cons.mp hr with h | h
    · rw [h]; rfl
    · rw [List.eq_of_mem_replicate h]; rfl

/-- Witness for C1: three concurrent callers on the empty initial state —
one fetch (id 0) is started, and all three callers await fetch 0, so all
receive whatever fetch 0 settles to. -/
theorem claim_single_flight_dedup_witness :
    ((runCallers 10000 "codex" 0 3 {}).1.countP LoadRes.startedFetch = 1)
    ∧ (∀ r ∈ (runCallers 10000 "codex" 0 3 {}).1, r.fidOf = some 0)
    ∧ (∀ (deliver : ℕ → Except String CachedUsage),
        ∀ r ∈ (runCallers 10000 "codex" 0 3 {}).1, r.received deliver = deliver 0) :=
  claim_single_flight_dedup 10000 "codex" 0 {} 2
    (fun e he => by cases he) rfl

/-- C3: when the upstream fetch registered for a key fails, the single
settlement value handed to every awaiter of that key's in-flight promise
is that error (so all concurrent waiters fail identically — awaiters hold
the same promise, whose settlement is the first component here), the cache
map is left exactly as it was (no sentinel entry is stored or replaced),
and the `finally` clause removes the in-flight registry entry, so a next
`load(key)` call that still finds no fresh entry starts a fresh fetch. -/
theorem claim_failure_not_cached (cacheTtlMs : ℤ) (type : String) (s : CacheState)
    (fid : ℕ) (err : String)
    (hfl : mget type s.inFlight = some fid) :
    ((fetchBodyResult type (.error err) s).2.cache = s.cache)
    ∧ (mget type (fetchBodyResult type (.error err) s).2.inFlight = none)
    ∧ (∃ msg, (fetchBodyResult type (.error err) s).1 = .error msg
        ∧ (type = "codex" → msg = err))
    ∧ (∀ now, (∀ e, mget type s.cache = some e → isFresh cacheTtlMs e now = false) →
        (loadUsageStep cacheTtlMs type now (fetchBodyResult type (.error err) s).2).1
          = .started s.nextFid) := by
  have hs2 : (fetchBodyResult type (.error err) s).2
      = { s with inFlight := mdel type s.inFlight } := by
    by_cases hc : type = "codex" <;> simp [fetchBodyResult, hc]
  refine ⟨by rw [hs2], ?_, ?_, ?_⟩
  · rw [hs2]
    exact mget_mdel_self type s.inFlight
  · by_cases hc : type = "codex"
    · exact ⟨err, by simp [fetchBodyResult, hc], fun _ => rfl⟩
    · exact ⟨"Unsupported usage type: " ++ type, by simp [fetchBodyResult, hc],
        fun h => absurd h hc⟩
  · intro now hstale
    rw [hs2, loadUsageStep_start cacheTtlMs type now
      { s with inFlight := mdel type s.inFlight } hstale
      (mget_mdel_self type s.inFlight)]

/-- Witness for C3 at a concrete state: one in-flight fetch for "codex"
fails with "boom"; the cache stays empty, the in-flight entry is gone, the
delivered settlement is the error "boom", and a retry starts fetch 1. -/
theorem claim_failure_not_cached_witness :
    (((fetchBodyResult "codex" (.error "boom")
        { inFlight := [("codex", 0)], nextFid := 1 }).2.cache
      = ({ inFlight := [("codex", 0)], nextFid := 1 } : CacheState).cache))
    ∧ (mget "codex" (fetchBodyResult "codex" (.error "boom")
        { inFlight := [("codex", 0)], nextFid := 1 }).2.inFlight = none)
    ∧ (∃ msg, (fetchBodyResult "codex" (.error "boom")
        { inFlight := [("codex", 0)], nextFid := 1 }).1 = .error msg
        ∧ ("codex" = "codex" → msg = "boom"))
    ∧ (∀ now, (∀ e, mget "codex"
          ({ inFlight := [("codex", 0)], nextFid := 1 } : CacheState).cache = some e →
          isFresh 10000 e now = false) →
        (loadUsageStep 10000 "codex" now (fetchBodyResult "codex" (.error "boom")
          { inFlight := [("codex", 0)], nextFid := 1 }).2).1 = .started 1) :=
  claim_failure_not_cached 10000 "codex"
    { inFlight := [("codex", 0)], nextFid := 1 } 0 "boom" rfl

/-- One cache-machine step preserves the stored-entry shape invariant. -/
theorem cstep_preserves_entry_shape (cacheTtlMs : ℤ) (s : CacheState) (e : CEvent)
    (hinv : ∀ type entry, mget type s.cache = some entry →
      entry.lastUpdated = entry.snapshot.fetchedAt
        ∧ entry.etag = buildEtag type entry.lastUpdated) :
    ∀ type entry, mget type (cstep cacheTtlMs s e).cache = some entry →
      entry.lastUpdated = entry.snapshot.fetchedAt
        ∧ entry.etag = buildEtag type entry.lastUpdated := by
  intro type entry hm
  match e with
  | .load t now =>
    have hcache : (cstep cacheTtlMs s (.load t now)).cache = s.cache := by
      show (loadUsageStep cacheTtlMs t now s).2.cache = s.cache
      unfold loadUsageStep
      (repeat' split) <;> rfl
    rw [hcache] at hm
    exact hinv type entry hm
  | .complete t fetchResult =>
    by_cases hc : t = "codex"
    · subst hc
      match fetchResult with
      | .error err =>
        have : (cstep cacheTtlMs s (.complete "codex" (.error err))).cache = s.cache := rfl
        rw [this] at hm
        exact hinv type entry hm
      | .ok snapshot =>
        have hm' : mget type (mset "codex"
            { snapshot := normalizeCodexUsage snapshot
              etag := buildEtag "codex" (normalizeCodexUsage snapshot).fetchedAt
              lastUpdated := (normalizeCodexUsage snapshot).fetchedAt } s.cache)
            = some entry := hm
        by_cases ht : type = "codex"
        · subst ht
          rw [mget_mset_self] at hm'
          cases hm'
          exact ⟨rfl, rfl⟩
        · rw [mget_mset_ne type "codex" _ s.cache ht] at hm'
          exact hinv type entry hm'
    · have : (cstep cacheTtlMs s (.complete t fetchResult)).cache = s.cache := by
        simp [cstep, fetchBodyResult, hc]
      rw [this] at hm
      exact hinv type entry hm

/-- C10: along every trace from the initial module state (empty maps),
every entry stored in the cache satisfies
`lastUpdated = snapshot.fetchedAt` and `etag = W/"<key>-<lastUpdated>"`
exactly; and the `fetchedAt` a stored snapshot carries is the timestamp
stamped inside `fetchCodexUsage` at the successful merge
(`buildSnapshot`'s `nowAtMerge`, preserved by `normalizeCodexUsage`), not
the time of cache insertion — the insertion step takes no clock at all.
Consequently the freshness comparison (`isFresh`, against `lastUpdated`)
and the Last-Modified value (rendered from `lastUpdated`) are both
measured from that fetch-completion timestamp. -/
theorem claim_cache_entry_shape (cacheTtlMs : ℤ) (events : List CEvent) :
    (∀ type entry, mget type (crun cacheTtlMs events {}).cache = some entry →
      entry.lastUpdated = entry.snapshot.fetchedAt
        ∧ entry.etag = buildEtag type entry.lastUpdated)
    ∧ (∀ (nowAtMerge : ℤ) (a : CodexAccountResponse) (rl : CodexRateLimitsResponse)
        (f : Option CodexAuthFallback),
        (normalizeCodexUsage (buildSnapshot nowAtMerge a rl f)).fetchedAt = nowAtMerge) := by
  refine ⟨?_, fun _ _ _ _ => rfl⟩
  have main : ∀ (evs : List CEvent) (s : CacheState),
      (∀ type entry, mget type s.cache = some entry →
        entry.lastUpdated = entry.snapshot.fetchedAt
          ∧ entry.etag = buildEtag type entry.lastUpdated) →
      ∀ type entry, mget type (crun cacheTtlMs evs s).cache = some entry →
        entry.lastUpdated = entry.snapshot.fetchedAt
          ∧ entry.etag = buildEtag type entry.lastUpdated := by
    intro evs
    induction evs with
    | nil => intro s hinv; exact hinv
    | cons e rest ih =>
      intro s hinv
      exact ih (cstep cacheTtlMs s e) (cstep_preserves_entry_shape cacheTtlMs s e hinv)
  exact main events {} (fun type entry h => by cases h)

/-- Witness for C10: run a concrete two-event trace (a load at time 0, a
successful settlement whose snapshot was stamped at merge time 5) and read
the invariant off the stored entry. -/
theorem claim_cache_entry_shape_witness :
    ∀ entry, mget "codex" (crun 10000
        [.load "codex" 0, .complete "codex" (.ok (buildSnapshot 5 {} {} none))] {}).cache
      = some entry →
      entry.lastUpdated = entry.snapshot.fetchedAt
        ∧ entry.etag = buildEtag "codex" entry.lastUpdated :=
  fun entry h => (claim_cache_entry_shape 10000
    [.load "codex" 0, .complete "codex" (.ok (buildSnapshot 5 {} {} none))]).1
    "codex" entry h

/-- A successful non-absent credential read produces exactly the record
whose fields prefer the namespaced claim keys over the bare ones. -/
theorem readCodexAuth_ok_shape (env : AuthEnv) (authPath : String) (fb : CodexAuthFallback)
    (h : readCodexAuth env authPath = .ok (some fb)) :
    fb.email = jsCoalesce (jsGet fb.claims "https://api.openai.com/profile.email")
        (jsGet fb.claims "email")
    ∧ fb.planType = jsCoalesce (jsGet fb.claims "https://api.openai.com/auth.chatgpt_plan_type")
        (jsGet fb.claims "chatgpt_plan_type") := by
  have tail : ∀ v, authFromIdToken env v = .ok (some fb) →
      fb.email = jsCoalesce (jsGet fb.claims "https://api.openai.com/profile.email")
          (jsGet fb.claims "email")
      ∧ fb.planType =
          jsCoalesce (jsGet fb.claims "https://api.openai.com/auth.chatgpt_plan_type")
            (jsGet fb.claims "chatgpt_plan_type") := by
    intro v hv
    unfold authFromIdToken at hv
    repeat' split at hv
    all_goals first
      | exact Except.noConfusion hv
      | exact Option.noConfusion (Except.ok.inj hv)
      | (have hv2 := Option.some.inj (Except.ok.inj hv); subst hv2; exact ⟨rfl, rfl⟩)
  unfold readCodexAuth at h
  repeat' split at h
  all_goals first
    | cases h
    | exact tail _ h

/-- C7: the credential fallback read never lets an error past its caller
and yields an absent result on every failure: any rejection inside
`readCodexAuth` (missing file, JSON.parse throwing on a malformed file or
token payload, a type error on a malformed token value) is absorbed to
`undefined` by the `.catch` at the call site; a missing file, a JSON
parser that always fails, and a token without a dot-delimited middle
segment each yield absent; and when it does succeed, the extracted email
and plan-type prefer the namespaced claim keys over the bare `email` /
`chatgpt_plan_type` keys. -/
theorem claim_auth_fallback_absorbs (env : AuthEnv) (authPath : String) :
    (∀ e, readCodexAuth env authPath = .error e → readCodexAuthCaught env authPath = none)
    ∧ (env.readFile authPath = none → readCodexAuthCaught env authPath = none)
    ∧ ((∀ s, env.jsonParse s = none) → readCodexAuthCaught env authPath = none)
    ∧ (∀ token, (jsSplitOnChar '.' token).get? 1 = none → decodeJwtPayload env token = none)
    ∧ (∀ fb, readCodexAuthCaught env authPath = some fb →
        fb.email = jsCoalesce (jsGet fb.claims "https://api.openai.com/profile.email")
            (jsGet fb.claims "email")
        ∧ fb.planType =
            jsCoalesce (jsGet fb.claims "https://api.openai.com/auth.chatgpt_plan_type")
              (jsGet fb.claims "chatgpt_plan_type")) := by
  refine ⟨?_, ?_, ?_, ?_, ?_⟩
  · intro e he
    simp [readCodexAuthCaught, he]
  · intro h
    simp [readCodexAuthCaught, readCodexAuth, h]
  · intro h
    cases hrf : env.readFile authPath with
    | none => simp [readCodexAuthCaught, readCodexAuth, hrf]
    | some raw => simp [readCodexAuthCaught, readCodexAuth, hrf, h raw]
  · intro token ht
    unfold decodeJwtPayload
    rw [ht]
  · intro fb hfb
    unfold readCodexAuthCaught at hfb
    cases hra : readCodexAuth env authPath with
    | error e => rw [hra] at hfb; cases hfb
    | ok r =>
      rw [hra] at hfb
      cases r with
      | none => cases hfb
      | some fb' =>
        cases hfb
        exact readCodexAuth_ok_shape env authPath fb hra

/-- Witness for C7: a file system whose read always rejects yields an
absent fallback, both through the error-absorption conjunct and the
missing-file conjunct, and a dotless token decodes to absent. -/
theorem claim_auth_fallback_absorbs_witness :
    readCodexAuthCaught ⟨fun _ => none, fun _ => none, fun _ => ""⟩ "auth.json" = none
    ∧ decodeJwtPayload ⟨fun _ => none, fun _ => none, fun _ => ""⟩ "abc" = none :=
  ⟨(claim_auth_fallback_absorbs ⟨fun _ => none, fun _ => none, fun _ => ""⟩ "auth.json").2.1 rfl,
   (claim_auth_fallback_absorbs ⟨fun _ => none, fun _ => none, fun _ => ""⟩
      "auth.json").2.2.2.1 "abc" rfl⟩

/-- C8: if the child process exits while calls are pending, every pending
call is rejected with the process-exit error — for a non-zero exit code
the message carries the code textually (and the signal, when present, sits
in the same message), while an unexpected exit with code 0 is still
treated as an error, rejected with the generic exit message; in both cases
the pending table is emptied, so the subsequent `close()` settles nothing
(a no-op for the pending calls) — and `close` never throws by
construction. Concretely: exit code 2 with calls 1 and 2 pending rejects
both with a message containing "2", and the following `close()` emits
nothing. -/
theorem claim_exit_rejects_pending :
    (∀ (s : TransportState) (c : ℤ) (signal : Option String),
      s.closed = false → c ≠ 0 →
      (tstep s (.procExit (some c) signal)).2
          = s.pending.map (fun p => .rejected p.1 (exitMessage (some c) signal))
        ∧ (tstep s (.procExit (some c) signal)).1.pending = []
        ∧ ∃ pre post, (exitMessage (some c) signal).data
            = pre ++ (toString c).data ++ post)
    ∧ (∀ (s : TransportState) (signal : Option String),
      s.closed = false →
      (tstep s (.procExit (some 0) signal)).2
          = s.pending.map (fun p => .rejected p.1 "Codex RPC process exited unexpectedly"))
    ∧ (∀ (s : TransportState) (code : Option ℤ) (signal : Option String),
      s.closed = false →
      (tstep (tstep s (.procExit code signal)).1 .close).2 = [])
    ∧ (tstep { pending := [(1, "account/read"), (2, "account/rateLimits/read")]
               nextId := 3 } (.procExit (some 2) none)).2
        = [.rejected 1 "Codex RPC process exited (2$)",
           .rejected 2 "Codex RPC process exited (2$)"]
    ∧ (tstep (tstep { pending := [(1, "account/read"), (2, "account/rateLimits/read")]
                      nextId := 3 } (.procExit (some 2) none)).1 .close).2 = [] := by
  refine ⟨?_, ?_, ?_, rfl, rfl⟩
  · intro s c signal hcl hc
    have hmsg : exitMessage (some c) signal
        = "Codex RPC process exited (" ++ toString c ++ "$" ++
          (match signal with
           | some sg => if sg = "" then "" else ":" ++ sg
           | none => "") ++ ")" := by
      unfold exitMessage
      rw [if_neg (by simpa using hc)]
    refine ⟨by simp [tstep, hcl], by simp [tstep, hcl], ?_⟩
    refine ⟨"Codex RPC process exited (".data,
      ("$" ++ (match signal with
               | some sg => if sg = "" then "" else ":" ++ sg
               | none => "") ++ ")").data, ?_⟩
    rw [hmsg]
    cases signal <;> simp
  · intro s signal hcl
    have hmsg : exitMessage (some 0) signal = "Codex RPC process exited unexpectedly" := rfl
    simp [tstep, hcl, hmsg]
  · intro s code signal hcl
    have h1 : (tstep s (.procExit code signal)).1 = { s with pending := [] } := by
      simp [tstep, hcl]
    rw [h1]
    simp [tstep, hcl]

/-- Witness for C8: the general non-zero-exit conjunct applied at the
concrete two-pending-calls state with exit code 2. -/
theorem claim_exit_rejects_pending_witness :
    (tstep { pending := [(1, "account/read"), (2, "account/rateLimits/read")]
             nextId := 3 } (.procExit (some 2) none)).2
      = [(.rejected 1 (exitMessage (some 2) none) : TOut),
         .rejected 2 (exitMessage (some 2) none)]
    ∧ ∃ pre post, (exitMessage (some 2) none).data
        = pre ++ (toString (2 : ℤ)).data ++ post := by
  have h := claim_exit_rejects_pending.1
    { pending := [(1, "account/read"), (2, "account/rateLimits/read")]
      nextId := 3 }
    2 none rfl (by decide)
  exact ⟨h.1, h.2.2⟩

/-- The ids currently holding a pending call. -/
def pendingIds (s : TransportState) : List ℕ := s.pending.map Prod.fst

/-- No transport transition ever decreases the id counter. -/
theorem tstep_nextId_mono (s : TransportState) (e : TEvent) :
    s.nextId ≤ (tstep s e).1.nextId := by
  unfold tstep
  repeat' split
  all_goals simp

/-- One transport transition preserves the pending-table invariant:
pairwise-distinct ids, all below the id counter. -/
theorem tstep_preserves_pending_inv (s : TransportState) (e : TEvent)
    (hnd : (pendingIds s).Nodup) (hbd : ∀ id ∈ pendingIds s, id < s.nextId) :
    (pendingIds (tstep s e).1).Nodup
      ∧ ∀ id ∈ pendingIds (tstep s e).1, id < (tstep s e).1.nextId := by
  match e with
  | .request m =>
    by_cases hcl : s.closed
    · simpa [tstep, hcl] using ⟨hnd, hbd⟩
    · have hpend : (tstep s (.request m)).1.pending = s.pending ++ [(s.nextId, m)] := by
        simp [tstep, hcl]
      have hnext : (tstep s (.request m)).1.nextId = s.nextId + 1 := by
        simp [tstep, hcl]
      have hids : pendingIds (tstep s (.request m)).1 = pendingIds s ++ [s.nextId] := by
        simp [pendingIds, hpend]
      rw [hids, hnext]
      constructor
      · rw [List.nodup_append]
        exact ⟨hnd, List.nodup_singleton _,
          by simp [List.Disjoint]; intro id hid e; exact absurd (hbd id hid) (by simp [e])⟩
      · intro id hid
        rcases List.mem_append.mp hid with h | h
        · exact Nat.lt_succ_of_lt (hbd id h)
        · simp at h; simp [h]
  | .line none => simpa [tstep] using ⟨hnd, hbd⟩
  | .line (some (id, err)) =>
    cases hf : s.pending.find? (fun p => p.1 == id) with
    | none => simpa [tstep, hf] using ⟨hnd, hbd⟩
    | some p =>
      have hids : pendingIds (tstep s (.line (some (id, err)))).1
          = (s.pending.filter (fun p => p.1 != id)).map Prod.fst := by
        simp [pendingIds, tstep, hf]
      have hnext : (tstep s (.line (some (id, err)))).1.nextId = s.nextId := by
        simp [tstep, hf]
      refine ⟨?_, ?_⟩
      · rw [hids]
        exact List.Nodup.sublist ((List.filter_sublist _).map Prod.fst) hnd
      · intro i hi
        rw [hnext]
        refine hbd i ?_
        rw [hids] at hi
        rcases List.mem_map.mp hi with ⟨q, hq, hqe⟩
        exact hqe ▸ List.mem_map_of_mem _ (List.mem_of_mem_filter hq)
  | .timerFire id =>
    cases hf : s.pending.find? (fun p => p.1 == id) with
    | none => simpa [tstep, hf] using ⟨hnd, hbd⟩
    | some p =>
      have hids : pendingIds (tstep s (.timerFire id)).1
          = (s.pending.filter (fun q => q.1 != id)).map Prod.fst := by
        simp [pendingIds, tstep, hf]
      have hnext : (tstep s (.timerFire id)).1.nextId = s.nextId := by
        simp [tstep, hf]
      refine ⟨?_, ?_⟩
      · rw [hids]
        exact List.Nodup.sublist ((List.filter_sublist _).map Prod.fst) hnd
      · intro i hi
        rw [hnext]
        refine hbd i ?_
        rw [hids] at hi
        rcases List.mem_map.mp hi with ⟨q, hq, hqe⟩
        exact hqe ▸ List.mem_map_of_mem _ (List.mem_of_mem_filter hq)
  | .procExit code signal =>
    by_cases hcl : s.closed
    · simpa [tstep, hcl] using ⟨hnd, hbd⟩
    · simp [tstep, hcl, pendingIds]
  | .close =>
    by_cases hcl : s.closed
    · simpa [tstep, hcl] using ⟨hnd, hbd⟩
    · simp [tstep, hcl, pendingIds]

/-- The pending-table invariant holds at the end of every event trace. -/
theorem trun_pending_inv : ∀ (events : List TEvent) (s : TransportState),
    (pendingIds s).Nodup → (∀ id ∈ pendingIds s, id < s.nextId) →
    (pendingIds (trun events s).1).Nodup
      ∧ ∀ id ∈ pendingIds (trun events s).1, id < (trun events s).1.nextId := by
  intro events
  induction events with
  | nil => intro s hnd hbd; exact ⟨hnd, hbd⟩
  | cons e rest ih =>
    intro s hnd hbd
    have h := tstep_preserves_pending_inv s e hnd hbd
    simpa [trun] using ih (tstep s e).1 h.1 h.2

/-- The ids a transport assigns along any trace form a strictly increasing
sequence, all at or above the starting counter. -/
theorem assignedIds_sorted : ∀ (events : List TEvent) (s : TransportState),
    List.Sorted (· < ·) (assignedIds events s)
      ∧ ∀ a ∈ assignedIds events s, s.nextId ≤ a := by
  intro events
  induction events with
  | nil => intro s; exact ⟨List.sorted_nil, by simp [assignedIds]⟩
  | cons e rest ih =>
    intro s
    match e with
    | .request m =>
      by_cases hcl : s.closed
      · simpa [assignedIds, hcl] using ih s
      · have hnext : (tstep s (.request m)).1.nextId = s.nextId + 1 := by
          simp [tstep, hcl]
        have iht := ih (tstep s (.request m)).1
        have hall : ∀ a ∈ assignedIds rest (tstep s (.request m)).1, s.nextId < a := by
          intro a ha
          have h2 := iht.2 a ha
          rw [hnext] at h2
          exact Nat.lt_of_succ_le h2
        refine ⟨?_, ?_⟩
        · simpa [assignedIds, hcl] using List.sorted_cons.mpr ⟨hall, iht.1⟩
        · intro a ha
          simp only [assignedIds, hcl, if_neg Bool.false_ne_true] at ha
          rcases List.mem_cons.mp ha with h | h
          · simp [h]
          · exact Nat.le_of_lt (hall a h)
    | .line payload =>
      have iht := ih (tstep s (.line payload)).1
      exact ⟨by simpa [assignedIds] using iht.1,
        fun a ha => Nat.le_trans (tstep_nextId_mono s (.line payload))
          (iht.2 a (by simpa [assignedIds] using ha))⟩
    | .timerFire id =>
      have iht := ih (tstep s (.timerFire id)).1
      exact ⟨by simpa [assignedIds] using iht.1,
        fun a ha => Nat.le_trans (tstep_nextId_mono s (.timerFire id))
          (iht.2 a (by simpa [assignedIds] using ha))⟩
    | .procExit code signal =>
      have iht := ih (tstep s (.procExit code signal)).1
      exact ⟨by simpa [assignedIds] using iht.1,
        fun a ha => Nat.le_trans (tstep_nextId_mono s (.procExit code signal))
          (iht.2 a (by simpa [assignedIds] using ha))⟩
    | .close =>
      have iht := ih (tstep s .close).1
      exact ⟨by simpa [assignedIds] using iht.1,
        fun a ha => Nat.le_trans (tstep_nextId_mono s .close)
          (iht.2 a (by simpa [assignedIds] using ha))⟩

/-- C9: within one transport instance, (i) after any event trace from the
initial state the pending table holds at most one call per id (its id list
has no duplicates — and this holds at every point, as every prefix is
itself a trace); (ii) the ids assigned to outbound calls along any trace
are strictly monotonically increasing, hence never reused; (iii) removal
of a pending entry is first-wins and idempotent: once an id is no longer
pending, a response line for it and a timer firing for it are complete
no-ops (state unchanged, nothing settled) — the exit and close handlers
remove entries only while settling them, so each pending call is settled
by exactly one of response, timeout, exit, or close. -/
theorem claim_transport_pending_invariants :
    (∀ events : List TEvent, (pendingIds (trun events {}).1).Nodup)
    ∧ (∀ events : List TEvent, List.Sorted (· < ·) (assignedIds events {}))
    ∧ (∀ (s : TransportState) (id : ℕ) (err : Option (ℤ × String)),
        id ∉ pendingIds s →
        tstep s (.line (some (id, err))) = (s, [])
          ∧ tstep s (.timerFire id) = (s, [])) := by
  refine ⟨?_, ?_, ?_⟩
  · intro events
    exact (trun_pending_inv events {} (by simp [pendingIds]) (by simp [pendingIds])).1
  · intro events
    exact (assignedIds_sorted events {}).1
  · intro s id err h
    have hf : s.pending.find? (fun p => p.1 == id) = none := by
      rw [List.find?_eq_none]
      intro p hp
      simp only [beq_iff_eq]
      exact fun e => h (e ▸ List.mem_map_of_mem Prod.fst hp)
    exact ⟨by simp [tstep, hf], by simp [tstep, hf]⟩

/-- Witness for C9: a concrete trace (two requests, a response for id 1, a
timer for id 1 — a no-op since id 1 was already removed) keeps the table
duplicate-free, assigns ids 1 then 2, and the late timer is a no-op on a
state where id 1 is absent. -/
theorem claim_transport_pending_invariants_witness :
    (pendingIds (trun [.request "initialize", .request "account/read",
        .line (some (1, none)), .timerFire 1] {}).1).Nodup
    ∧ List.Sorted (· < ·) (assignedIds [.request "initialize", .request "account/read",
        .line (some (1, none)), .timerFire 1] {})
    ∧ (tstep { pending := [(2, "account/read")]
               nextId := 3 } (.timerFire 1)).2 = [] :=
  ⟨claim_transport_pending_invariants.1 _,
   claim_transport_pending_invariants.2.1 _,
   by rw [(claim_transport_pending_invariants.2.2
       { pending := [(2, "account/read")]
         nextId := 3 } 1 none (by decide)).2]⟩

end AgentUsage
